import Mathlib

/-!
Verification of the portfolio valuation series engine in `src/portfolio.py`
(class `PortfolioAnalyzer`).

The pure core of `generate_portfolio_series` (lines 49-86) is embedded as
Lean functions over lists: candles and trades are records carrying the
fields the code reads, monetary amounts and quantities are rationals, and
timestamps are integers (epoch milliseconds; `trade_ts` parses the ISO-8601
`created_at` string into such a value, which is the form carried here).
The pagination loop of `fetch_trades` (lines 27-39) is embedded as a
fuel-indexed function over an abstract page-response map.  The currency
filter construction (line 44) is embedded over lists of characters.
-/

namespace SupportBot

/-- One price candle as consumed by the merge loop (lines 62-63 read
`close_time` as an integer and `c`, the close price, as a number). -/
structure Candle where
  close_time : Int
  c : ℚ
deriving DecidableEq, Repr

/-- One completed trade as consumed by the merge loop (lines 65-75).
`created_at_ms` is the epoch-millisecond value that `trade_ts` (lines 50-53)
computes from the `created_at` ISO-8601 string.  The two optional settlement
fields mirror `t.get("inr_amount", t.get("quote_amount", 0))` on line 69. -/
structure Trade where
  created_at_ms : Int
  trade_type : String
  executed_quantity : ℚ
  average_execution_price : ℚ
  inr_amount : Option ℚ
  quote_amount : Option ℚ
deriving DecidableEq, Repr

/-- One output row of the series, as appended on lines 79-85. -/
structure PortfolioPoint where
  timestamp : Int
  cash : ℚ
  asset : ℚ
  asset_value : ℚ
  total : ℚ
deriving DecidableEq, Repr

/-- Embeds line 69: `inr_amount = float(t.get("inr_amount", t.get("quote_amount", 0)))`.
The `inr_amount` field wins when present, else `quote_amount`, else `0`. -/
def settlement (t : Trade) : ℚ :=
  match t.inr_amount with
  | some v => v
  | none =>
    match t.quote_amount with
    | some v => v
    | none => 0

/-- Embeds lines 66-75: the effect of one trade on the running pair
`(cash, asset)`.  A `"buy"` adds the quantity to `asset` and subtracts the
settlement amount from `cash`; a `"sell"` does the opposite; any other
`trade_type` falls through both branches and changes nothing.
`average_execution_price` is read on line 68 into a local that is never
used, so it does not appear here. -/
def applyTrade (s : ℚ × ℚ) (t : Trade) : ℚ × ℚ :=
  if t.trade_type = "buy" then (s.1 - settlement t, s.2 + t.executed_quantity)
  else if t.trade_type = "sell" then (s.1 + settlement t, s.2 - t.executed_quantity)
  else s

/-- The comparison used by the sort on line 54 (`sorted(trades, key=trade_ts)`). -/
def tradeLE (a b : Trade) : Prop := a.created_at_ms ≤ b.created_at_ms

instance : DecidableRel tradeLE := fun _ _ => Int.decLe _ _

instance : IsTotal Trade tradeLE := ⟨fun _ _ => Int.le_total _ _⟩

instance : IsTrans Trade tradeLE := ⟨fun _ _ _ h h' => le_trans h h'⟩

/-- Embeds line 54: `trades = sorted(trades, key=trade_ts)` (Python `sorted`
is a stable ascending sort; insertion sort is stable too). -/
def sortTrades (trades : List Trade) : List Trade :=
  List.insertionSort tradeLE trades

/-- The cursor guard of the while loop on line 65:
`trade_ts(trades[trade_idx]) <= ts`. -/
def upTo (k : Int) (t : Trade) : Bool := t.created_at_ms ≤ k

/-- Embeds lines 77-85: the point appended for one candle from the current
running balances `s = (cash, asset)`. -/
def mkPoint (c : Candle) (s : ℚ × ℚ) : PortfolioPoint :=
  { timestamp := c.close_time
    cash := s.1
    asset := s.2
    asset_value := s.2 * c.c
    total := s.1 + s.2 * c.c }

/-- Embeds the candle loop of lines 61-85.  The inner while loop (lines
65-76) consumes the longest first run of remaining trades whose timestamp is
`≤` the candle's close time (`takeWhile`/`dropWhile` on the remaining trade
list is exactly the monotone `trade_idx` cursor), folds them into the
running balances, and emits one point per candle. -/
def mergeGo : List Candle → List Trade → ℚ × ℚ → List PortfolioPoint
  | [], _, _ => []
  | c :: cs, trades, s =>
    let fired := trades.takeWhile (upTo c.close_time)
    let rest := trades.dropWhile (upTo c.close_time)
    let s2 := fired.foldl applyTrade s
    mkPoint c s2 :: mergeGo cs rest s2

/-- Embeds the series construction of `generate_portfolio_series` (lines
49-86) starting from the fetched inputs: sort the trades ascending by
timestamp, then run the merge loop from `cash = 0`, `asset = 0`
(lines 56-57). -/
def buildSeries (candles : List Candle) (trades : List Trade) : List PortfolioPoint :=
  mergeGo candles (sortTrades trades) (0, 0)

/-- Ascending order of a candle sequence by `close_time`. -/
def candlesSorted (candles : List Candle) : Prop :=
  candles.Pairwise (fun a b => a.close_time ≤ b.close_time)

instance : DecidablePred candlesSorted := fun candles =>
  List.instDecidablePairwise candles

/-- The error taxonomy named by the specification for the series builder. -/
inductive SeriesFailure where
  | invalidInput
deriving DecidableEq, Repr

/-- Error-aware view of the series construction.  The source (lines 49-86)
performs no validation of the candle ordering and contains no raise
statement, so on well-typed inputs it always succeeds with the merged
series; no `InvalidInputError` exists anywhere in the code. -/
def buildSeriesE (candles : List Candle) (trades : List Trade) :
    Except SeriesFailure (List PortfolioPoint) :=
  Except.ok (buildSeries candles trades)

/-- Embeds the pagination loop of `fetch_trades` (lines 30-39) against an
abstract page-response map (page number to that page's order list).  The
loop state is the current page number; `fuel` bounds how many iterations we
unfold, returning `none` when the loop has not finished within that many
page requests.  On an empty page the loop breaks and the concatenation of
all pages read so far is returned (the code appends each nonempty page to
`trades` and increments `page`; there is no other exit and no page bound in
the code). -/
def fetchTradesLoop (pages : Nat → List Trade) (page : Nat) : Nat → Option (List Trade)
  | 0 => none
  | fuel + 1 =>
    let orders := pages page
    if orders = [] then some []
    else (fetchTradesLoop pages (page + 1) fuel).map (fun rest => orders ++ rest)

/-- Termination of the `fetch_trades` pagination loop started (line 27) at
`page = 1`: some finite number of iterations suffices for the loop to
finish. -/
def fetchTradesTerminates (pages : Nat → List Trade) : Prop :=
  ∃ fuel res, fetchTradesLoop pages 1 fuel = some res

/-- Lower-casing of line 44 (`symbol.lower()`), character by character. -/
def pyLower (s : List Char) : List Char := s.map Char.toLower

/-- Embeds `.replace("inr", ",inr")` of line 44: Python `str.replace`
rewrites every non-overlapping occurrence of the pattern, scanning left to
right. -/
def replaceInr : List Char → List Char
  | [] => []
  | 'i' :: 'n' :: 'r' :: rest => ',' :: 'i' :: 'n' :: 'r' :: replaceInr rest
  | ch :: cs => ch :: replaceInr cs

/-- Embeds line 44: `currncy = symbol.lower().replace("inr", ",inr")`. -/
def currencyFilterTok (symbol : List Char) : List Char :=
  replaceInr (pyLower symbol)

/-- Embeds line 29 inside `fetch_trades`: the filter string actually placed
in the request parameters is `f'["{currency}"]'`, i.e. the pair token of
line 44 embedded verbatim between `["` and `"]`. -/
def wireCurrency (symbol : List Char) : List Char :=
  [ '[', '"' ] ++ currencyFilterTok symbol ++ [ '"', ']' ]

/-- Modelled from the spec's words (for comparison with the code's
`currencyFilterTok`): lower-case the symbol and insert a comma between the
asset part and the trailing `"inr"` suffix only. -/
def specTrailingCommaTok (symbol : List Char) : List Char :=
  let low := pyLower symbol
  low.take (low.length - 3) ++ [ ',', 'i', 'n', 'r' ]

/-- An occurrence of the pattern `"inr"` at position `i` of `s`. -/
def occursInrAt (s : List Char) (i : Nat) : Prop :=
  (s.drop i).take 3 = ['i', 'n', 'r']

instance (s : List Char) (i : Nat) : Decidable (occursInrAt s i) :=
  inferInstanceAs (Decidable (_ = _))

/-- The lower-cased symbol ends with `"inr"` and has no other occurrence of
`"inr"` anywhere before the trailing one. -/
def onlyTrailingInr (s : List Char) : Prop :=
  occursInrAt s (s.length - 3) ∧ ∀ i < s.length - 3, ¬ occursInrAt s i

instance (s : List Char) : Decidable (onlyTrailingInr s) :=
  inferInstanceAs (Decidable (_ ∧ _))

/-- Default candle used with `List.getD` in indexed statements. -/
def dfltCandle : Candle := ⟨0, 0⟩

/-- Default point used with `List.getD` in indexed statements. -/
def dfltPoint : PortfolioPoint := ⟨0, 0, 0, 0, 0⟩

/-- Two ascending candles matching the spec's end-to-end scenario
(`close_time` 1000 and 2000, close prices 10 and 12). -/
def demoCandles : List Candle := [⟨1000, 10⟩, ⟨2000, 12⟩]

/-- A buy of 2 units settling 20 (INR field present), executed at 500 ms. -/
def demoBuy : Trade := ⟨500, "buy", 2, 11, some 20, none⟩

/-- A sell of 1 unit settling 13 (quote field only), executed at 1500 ms. -/
def demoSell : Trade := ⟨1500, "sell", 1, 13, none, some 13⟩

/-- A trade executed at 5000 ms, after every demo candle's close time. -/
def demoLate : Trade := ⟨5000, "buy", 1, 1, some 5, none⟩

/-- A trade whose `trade_type` is neither `"buy"` nor `"sell"`. -/
def demoUnknown : Trade := ⟨900, "cancelled", 7, 3, some 4, none⟩

/-- A buy trade carrying neither an `inr_amount` nor a `quote_amount` field. -/
def demoNoAmount : Trade := ⟨800, "buy", 3, 9, none, none⟩

/-- A candle sequence that is not ascending by `close_time`. -/
def unsortedCandles : List Candle := [⟨2000, 1⟩, ⟨1000, 1⟩]

/-- A page-response map on which every page carries one order: the endpoint
never returns the empty order list that is the loop's only exit. -/
def constOrderPage : Nat → List Trade := fun _ => [demoBuy]

/-- The probe symbol `"BTCINR"` as a character list. -/
def demoSymbol : List Char := ['B', 'T', 'C', 'I', 'N', 'R']

/-- The probe symbol `"INRINR"`: its lower-cased form ends with `"inr"` but
also contains `"inr"` at position 0. -/
def trickySymbol : List Char := ['I', 'N', 'R', 'I', 'N', 'R']

/-- Cash delta contributed by one trade (derived view of `applyTrade`). -/
def dcash (t : Trade) : ℚ :=
  if t.trade_type = "buy" then -settlement t
  else if t.trade_type = "sell" then settlement t
  else 0

/-- Asset delta contributed by one trade (derived view of `applyTrade`). -/
def dasset (t : Trade) : ℚ :=
  if t.trade_type = "buy" then t.executed_quantity
  else if t.trade_type = "sell" then -t.executed_quantity
  else 0

/-! ### Helper lemmas about the running-balance fold -/

lemma applyTrade_eq (s : ℚ × ℚ) (t : Trade) :
    applyTrade s t = (s.1 + dcash t, s.2 + dasset t) := by
  unfold applyTrade dcash dasset
  split_ifs <;> simp [sub_eq_add_neg]

lemma foldl_applyTrade (l : List Trade) (s : ℚ × ℚ) :
    l.foldl applyTrade s = (s.1 + (l.map dcash).sum, s.2 + (l.map dasset).sum) := by
  induction l generalizing s with
  | nil => simp
  | cons t l ih =>
    simp [List.foldl_cons, ih, applyTrade_eq, add_assoc]

lemma takeWhile_sorted (k : Int) :
    ∀ l : List Trade, l.Sorted tradeLE → l.takeWhile (upTo k) = l.filter (upTo k)
  | [], _ => rfl
  | t :: l, h => by
    rcases List.pairwise_cons.mp h with ⟨hhead, htail⟩
    by_cases hk : upTo k t = true
    · simp [List.takeWhile_cons, List.filter_cons, hk, takeWhile_sorted k l htail]
    · have hnil : ∀ u ∈ l, ¬ (upTo k u = true) := by
        intro u hu
        have hle : t.created_at_ms ≤ u.created_at_ms := hhead u hu
        simp only [upTo, decide_eq_true_eq] at hk ⊢
        omega
      simp [List.takeWhile_cons, List.filter_cons, hk, List.filter_eq_nil_iff.mpr hnil]

lemma dropWhile_sorted (k : Int) :
    ∀ l : List Trade, l.Sorted tradeLE →
      l.dropWhile (upTo k) = l.filter (fun t => ! upTo k t)
  | [], _ => rfl
  | t :: l, h => by
    rcases List.pairwise_cons.mp h with ⟨hhead, htail⟩
    by_cases hk : upTo k t = true
    · simp [List.dropWhile_cons, List.filter_cons, hk, dropWhile_sorted k l htail]
    · have hall : ∀ u ∈ l, (! upTo k u) = true := by
        intro u hu
        have hle : t.created_at_ms ≤ u.created_at_ms := hhead u hu
        simp only [upTo, Bool.not_eq_eq_eq_not, Bool.not_true, decide_eq_true_eq,
          decide_eq_false_iff_not] at hk ⊢
        omega
      simp [List.dropWhile_cons, List.filter_cons, hk, List.filter_eq_self.mpr hall]

lemma upTo_iff {k : Int} {t : Trade} : upTo k t = true ↔ t.created_at_ms ≤ k := by
  simp [upTo]

lemma sum_filter_sub (g : Trade → ℚ) (c k : Int) (l : List Trade) :
    ((l.filter (fun t => upTo k t && ! upTo c t)).map g).sum
      = ((l.filter (upTo k)).map g).sum - ((l.filter (upTo (min c k))).map g).sum := by
  induction l with
  | nil => simp
  | cons t l ih =>
    by_cases h1 : t.created_at_ms ≤ c <;> by_cases h2 : t.created_at_ms ≤ k
    · have e1 : upTo k t = true := upTo_iff.mpr h2
      have e2 : upTo c t = true := upTo_iff.mpr h1
      have e3 : upTo (min c k) t = true := upTo_iff.mpr (le_min h1 h2)
      simp [List.filter_cons, e1, e2, e3, ih]
    · have e1 : upTo k t = false := by simp [upTo, h2]
      have e2 : upTo c t = true := upTo_iff.mpr h1
      have e3 : upTo (min c k) t = false := by
        simp only [upTo, decide_eq_false_iff_not, le_min_iff]
        tauto
      simp [List.filter_cons, e1, e2, e3, ih]
    · have e1 : upTo k t = true := upTo_iff.mpr h2
      have e2 : upTo c t = false := by simp [upTo, h1]
      have e3 : upTo (min c k) t = false := by
        simp only [upTo, decide_eq_false_iff_not, le_min_iff]
        tauto
      simp [List.filter_cons, e1, e2, e3, ih]
      ring
    · have e1 : upTo k t = false := by simp [upTo, h2]
      have e2 : upTo c t = false := by simp [upTo, h1]
      have e3 : upTo (min c k) t = false := by
        simp only [upTo, decide_eq_false_iff_not, le_min_iff]
        tauto
      simp [List.filter_cons, e1, e2, e3, ih]

lemma foldl_filter_le (r : List Trade) (s : ℚ × ℚ) (c k : Int) (hck : c ≤ k) :
    List.foldl applyTrade (List.foldl applyTrade s (r.filter (upTo c)))
        ((r.filter (fun t => ! upTo c t)).filter (upTo k))
      = List.foldl applyTrade s (r.filter (upTo k)) := by
  simp only [List.filter_filter, foldl_applyTrade, Prod.mk.injEq]
  constructor <;> rw [sum_filter_sub, min_eq_left hck] <;> ring

/-! ### Structural lemmas about the merge loop -/

lemma mergeGo_length (cs : List Candle) : ∀ (r : List Trade) (s : ℚ × ℚ),
    (mergeGo cs r s).length = cs.length := by
  induction cs with
  | nil => intro r s; rfl
  | cons c cs ih => intro r s; simp [mergeGo, ih]

lemma mergeGo_getD (cs : List Candle) : ∀ (r : List Trade) (s : ℚ × ℚ) (i : Nat),
    i < cs.length →
    ∃ st : ℚ × ℚ, (mergeGo cs r s).getD i dfltPoint = mkPoint (cs.getD i dfltCandle) st := by
  induction cs with
  | nil => intro r s i hi; simp at hi
  | cons c cs ih =>
    intro r s i hi
    cases i with
    | zero =>
      exact ⟨(r.takeWhile (upTo c.close_time)).foldl applyTrade s, by simp [mergeGo]⟩
    | succ i =>
      have hi' : i < cs.length := by simpa using hi
      simpa [mergeGo, List.getD_cons_succ] using ih _ _ i hi'

lemma mergeGo_state (cs : List Candle) :
    ∀ (r : List Trade) (s : ℚ × ℚ), candlesSorted cs → r.Sorted tradeLE →
    ∀ i : Nat, i < cs.length →
      (mergeGo cs r s).getD i dfltPoint
        = mkPoint (cs.getD i dfltCandle)
            (List.foldl applyTrade s
              (r.filter (upTo (cs.getD i dfltCandle).close_time))) := by
  induction cs with
  | nil => intro r s _ _ i hi; simp at hi
  | cons c cs ih =>
    intro r s hcs hr i hi
    rcases List.pairwise_cons.mp hcs with ⟨hhead, htail⟩
    cases i with
    | zero =>
      simp [mergeGo, takeWhile_sorted _ _ hr]
    | succ i =>
      have hi' : i < cs.length := by simpa using hi
      have hmem : cs.getD i dfltCandle ∈ cs := by
        rw [List.getD_eq_getElem _ _ hi']
        exact List.getElem_mem hi'
      have hck : c.close_time ≤ (cs.getD i dfltCandle).close_time := hhead _ hmem
      have hrest : (r.filter (fun t => ! upTo c.close_time t)).Sorted tradeLE :=
        List.Pairwise.filter _ hr
      simp only [mergeGo, List.getD_cons_succ]
      rw [dropWhile_sorted _ _ hr, takeWhile_sorted _ _ hr,
        ih _ _ htail hrest i hi', foldl_filter_le _ _ _ _ hck]

lemma mergeGo_congr (cs : List Candle) :
    ∀ (r₁ r₂ : List Trade) (s : ℚ × ℚ), r₁.Sorted tradeLE → r₂.Sorted tradeLE →
      (∀ k : Int,
        ((r₁.filter (upTo k)).map dcash).sum = ((r₂.filter (upTo k)).map dcash).sum
        ∧ ((r₁.filter (upTo k)).map dasset).sum = ((r₂.filter (upTo k)).map dasset).sum) →
      mergeGo cs r₁ s = mergeGo cs r₂ s := by
  induction cs with
  | nil => intros; rfl
  | cons c cs ih =>
    intro r₁ r₂ s h₁ h₂ hsum
    have hs2 : (r₁.takeWhile (upTo c.close_time)).foldl applyTrade s
        = (r₂.takeWhile (upTo c.close_time)).foldl applyTrade s := by
      rw [takeWhile_sorted _ _ h₁, takeWhile_sorted _ _ h₂,
        foldl_applyTrade, foldl_applyTrade, (hsum c.close_time).1, (hsum c.close_time).2]
    have hsum' : ∀ k : Int,
        (((r₁.filter (fun t => ! upTo c.close_time t)).filter (upTo k)).map dcash).sum
          = (((r₂.filter (fun t => ! upTo c.close_time t)).filter (upTo k)).map dcash).sum
        ∧ (((r₁.filter (fun t => ! upTo c.close_time t)).filter (upTo k)).map dasset).sum
          = (((r₂.filter (fun t => ! upTo c.close_time t)).filter (upTo k)).map dasset).sum := by
      intro k
      simp only [List.filter_filter]
      constructor
      · rw [sum_filter_sub, sum_filter_sub, (hsum k).1, (hsum (min c.close_time k)).1]
      · rw [sum_filter_sub, sum_filter_sub, (hsum k).2, (hsum (min c.close_time k)).2]
    simp only [mergeGo]
    rw [dropWhile_sorted _ _ h₁, dropWhile_sorted _ _ h₂, hs2,
      ih _ _ _ (List.Pairwise.filter _ h₁) (List.Pairwise.filter _ h₂) hsum']

lemma sortTrades_sorted (l : List Trade) : (sortTrades l).Sorted tradeLE :=
  List.sorted_insertionSort tradeLE l

lemma sortTrades_perm (l : List Trade) : (sortTrades l).Perm l :=
  List.perm_insertionSort tradeLE l

lemma sum_filter_sortTrades (g : Trade → ℚ) (k : Int) (l : List Trade) :
    (((sortTrades l).filter (upTo k)).map g).sum = ((l.filter (upTo k)).map g).sum :=
  (((sortTrades_perm l).filter _).map g).sum_eq

lemma sum_insert_noop (g : Trade → ℚ) (l₁ l₂ : List Trade) (t : Trade) (hg : g t = 0)
    (k : Int) :
    (((l₁ ++ t :: l₂).filter (upTo k)).map g).sum
      = (((l₁ ++ l₂).filter (upTo k)).map g).sum := by
  by_cases hk : upTo k t = true <;>
    simp [List.filter_append, List.filter_cons, hk, hg]

lemma mergeGo_nil_getD (cs : List Candle) : ∀ (s : ℚ × ℚ) (i : Nat), i < cs.length →
    (mergeGo cs [] s).getD i dfltPoint = mkPoint (cs.getD i dfltCandle) s := by
  induction cs with
  | nil => intro s i hi; simp at hi
  | cons c cs ih =>
    intro s i hi
    cases i with
    | zero => simp [mergeGo]
    | succ i =>
      have hi' : i < cs.length := by simpa using hi
      simpa [mergeGo, List.getD_cons_succ] using ih s i hi'

lemma buildSeries_length (candles : List Candle) (trades : List Trade) :
    (buildSeries candles trades).length = candles.length :=
  mergeGo_length candles (sortTrades trades) (0, 0)

lemma fetchTradesLoop_const_none : ∀ (fuel page : Nat),
    fetchTradesLoop constOrderPage page fuel = none := by
  intro fuel
  induction fuel with
  | zero => intro page; rfl
  | succ n ih => intro page; simp [fetchTradesLoop, constOrderPage, ih]

lemma replaceInr_cons (ch : Char) (cs : List Char)
    (h : ¬ (ch :: cs).take 3 = ['i', 'n', 'r']) :
    replaceInr (ch :: cs) = ch :: replaceInr cs := by
  rw [replaceInr.eq_def]
  split
  · rename_i x heq
    exact absurd heq (by simp)
  · rename_i x rest heq
    rw [heq] at h
    simp at h
  · rename_i x1 ch2 cs2 hno heq
    injection heq with h1 h2
    rw [h1, h2]

lemma replaceInr_trailing : ∀ (p : List Char),
    (∀ i, i < p.length → ¬ occursInrAt (p ++ ['i', 'n', 'r']) i) →
    replaceInr (p ++ ['i', 'n', 'r']) = p ++ [',', 'i', 'n', 'r'] := by
  intro p
  induction p with
  | nil => intro _; rfl
  | cons ch p ih =>
    intro h
    have h0 : ¬ occursInrAt ((ch :: p) ++ ['i', 'n', 'r']) 0 := h 0 (by simp)
    have hns : ¬ ((ch :: (p ++ ['i', 'n', 'r'])).take 3 = ['i', 'n', 'r']) := by
      intro hc
      exact h0 (by simpa [occursInrAt] using hc)
    have htail : ∀ i, i < p.length → ¬ occursInrAt (p ++ ['i', 'n', 'r']) i := by
      intro i hi hocc
      exact h (i + 1) (by simpa using Nat.succ_lt_succ hi)
        (by simpa [occursInrAt] using hocc)
    calc replaceInr ((ch :: p) ++ ['i', 'n', 'r'])
        = ch :: replaceInr (p ++ ['i', 'n', 'r']) := by
          rw [List.cons_append]
          exact replaceInr_cons ch _ hns
      _ = ch :: (p ++ [',', 'i', 'n', 'r']) := by rw [ih htail]
      _ = (ch :: p) ++ [',', 'i', 'n', 'r'] := by simp

/-! ### Claim theorems -/

/-- Claim C1: with candles ascending by close time, every emitted point's
`(cash, asset)` pair is exactly the fold of the trade-update over the sorted
trades whose timestamp is `≤` that point's candle close time — so a trade
with `executed_at ≤ candles[last].close_time` is applied exactly once,
taking effect from the first point whose timestamp is `≥ executed_at` and in
no earlier point; and appending a trade whose timestamp is strictly greater
than every candle's close time leaves the whole series unchanged. -/
theorem C1_trade_applied_exactly_once (candles : List Candle) (trades : List Trade)
    (hc : candlesSorted candles) :
    (∀ i : Nat, i < candles.length →
      (((buildSeries candles trades).getD i dfltPoint).cash,
        ((buildSeries candles trades).getD i dfltPoint).asset)
        = List.foldl applyTrade (0, 0)
            ((sortTrades trades).filter (upTo (candles.getD i dfltCandle).close_time)))
    ∧ (∀ t : Trade, (∀ c ∈ candles, c.close_time < t.created_at_ms) →
        buildSeries candles (trades ++ [t]) = buildSeries candles trades) := by
  constructor
  · intro i hi
    rw [show buildSeries candles trades = mergeGo candles (sortTrades trades) (0, 0)
        from rfl,
      mergeGo_state candles (sortTrades trades) (0, 0) hc (sortTrades_sorted trades) i hi]
    simp [mkPoint]
  · intro t ht
    apply List.ext_get
    · rw [buildSeries_length, buildSeries_length]
    intro n h1 h2
    have hn : n < candles.length := by rwa [buildSeries_length] at h1
    rw [List.get_eq_getElem, List.get_eq_getElem,
      ← List.getD_eq_getElem _ dfltPoint h1, ← List.getD_eq_getElem _ dfltPoint h2]
    show (buildSeries candles (trades ++ [t])).getD n dfltPoint
      = (buildSeries candles trades).getD n dfltPoint
    unfold buildSeries
    rw [mergeGo_state candles _ _ hc (sortTrades_sorted _) n hn,
      mergeGo_state candles _ _ hc (sortTrades_sorted _) n hn]
    set k := (candles.getD n dfltCandle).close_time with hk
    have hknot : upTo k t = false := by
      have hmem : candles.getD n dfltCandle ∈ candles := by
        rw [List.getD_eq_getElem _ _ hn]
        exact List.getElem_mem hn
      have hlt := ht _ hmem
      simp only [upTo, decide_eq_false_iff_not, hk]
      omega
    have key : ∀ g : Trade → ℚ,
        (((sortTrades (trades ++ [t])).filter (upTo k)).map g).sum
          = (((sortTrades trades).filter (upTo k)).map g).sum := by
      intro g
      rw [sum_filter_sortTrades, sum_filter_sortTrades]
      simp [List.filter_append, List.filter_cons, hknot]
    rw [foldl_applyTrade, foldl_applyTrade, key dcash, key dasset]

/-- Witness for C1: the sorted-candle hypothesis holds of the demo candles,
and appending the late trade (timestamp 5000, after both candle closes)
leaves the series unchanged. -/
theorem C1_trade_applied_exactly_once_witness :
    candlesSorted demoCandles
    ∧ buildSeries demoCandles ([demoBuy] ++ [demoLate]) = buildSeries demoCandles [demoBuy] :=
  ⟨by decide,
    (C1_trade_applied_exactly_once demoCandles [demoBuy] (by decide)).2 demoLate (by decide)⟩

/-- Claim C2: the running balances start at `(0, 0)`; a `"buy"` trade
decreases cash by the settlement amount and increases asset by the executed
quantity; a `"sell"` does the opposite; the settlement amount comes from
`inr_amount` when present, else from `quote_amount`;
`average_execution_price` has no effect on the update; and no floor is
enforced, so cash can go negative. -/
theorem C2_balance_update :
    (∀ (s : ℚ × ℚ) (t : Trade), t.trade_type = "buy" →
        applyTrade s t = (s.1 - settlement t, s.2 + t.executed_quantity))
    ∧ (∀ (s : ℚ × ℚ) (t : Trade), t.trade_type = "sell" →
        applyTrade s t = (s.1 + settlement t, s.2 - t.executed_quantity))
    ∧ (∀ (t : Trade) (v : ℚ), t.inr_amount = some v → settlement t = v)
    ∧ (∀ (t : Trade) (v : ℚ), t.inr_amount = none → t.quote_amount = some v →
        settlement t = v)
    ∧ (∀ (s : ℚ × ℚ) (t : Trade) (q : ℚ),
        applyTrade s { t with average_execution_price := q } = applyTrade s t)
    ∧ (∀ (candles : List Candle) (i : Nat), i < candles.length →
        (buildSeries candles []).getD i dfltPoint
          = mkPoint (candles.getD i dfltCandle) (0, 0))
    ∧ (applyTrade (0, 0) demoBuy).1 < 0 := by
  refine ⟨?_, ?_, ?_, ?_, ?_, ?_, ?_⟩
  · intro s t h
    simp [applyTrade, h]
  · intro s t h
    simp [applyTrade, h]
  · intro t v h
    simp [settlement, h]
  · intro t v h1 h2
    simp [settlement, h1, h2]
  · intro s t q
    cases t
    rfl
  · intro candles i hi
    exact mergeGo_nil_getD candles (0, 0) i hi
  · norm_num [applyTrade, settlement, demoBuy]

/-- Witness for C2: the buy and sell update rules and the two settlement
source rules, instantiated at the demo trades. -/
theorem C2_balance_update_witness :
    applyTrade (3, 4) demoBuy
        = ((3 : ℚ) - settlement demoBuy, (4 : ℚ) + demoBuy.executed_quantity)
    ∧ applyTrade (3, 4) demoSell
        = ((3 : ℚ) + settlement demoSell, (4 : ℚ) - demoSell.executed_quantity)
    ∧ settlement demoBuy = 20
    ∧ settlement demoSell = 13 :=
  ⟨C2_balance_update.1 (3, 4) demoBuy rfl,
   C2_balance_update.2.1 (3, 4) demoSell rfl,
   C2_balance_update.2.2.1 demoBuy 20 rfl,
   C2_balance_update.2.2.2.1 demoSell 13 rfl rfl⟩

/-- Claim C3: for every candle sequence and trade sequence, every emitted
point satisfies `total = cash + asset_value` exactly, with
`asset_value = asset * close_price` of the matching candle. -/
theorem C3_total_invariant (candles : List Candle) (trades : List Trade) :
    ∀ i : Nat, i < candles.length →
      ((buildSeries candles trades).getD i dfltPoint).total
          = ((buildSeries candles trades).getD i dfltPoint).cash
            + ((buildSeries candles trades).getD i dfltPoint).asset_value
      ∧ ((buildSeries candles trades).getD i dfltPoint).asset_value
          = ((buildSeries candles trades).getD i dfltPoint).asset
            * (candles.getD i dfltCandle).c := by
  intro i hi
  obtain ⟨st, hst⟩ := mergeGo_getD candles (sortTrades trades) (0, 0) i hi
  rw [show buildSeries candles trades = mergeGo candles (sortTrades trades) (0, 0)
      from rfl, hst]
  simp [mkPoint]

/-- Witness for C3: the invariant at index 1 of the demo series. -/
theorem C3_total_invariant_witness :
    ((buildSeries demoCandles [demoBuy]).getD 1 dfltPoint).total
        = ((buildSeries demoCandles [demoBuy]).getD 1 dfltPoint).cash
          + ((buildSeries demoCandles [demoBuy]).getD 1 dfltPoint).asset_value
    ∧ ((buildSeries demoCandles [demoBuy]).getD 1 dfltPoint).asset_value
        = ((buildSeries demoCandles [demoBuy]).getD 1 dfltPoint).asset
          * (demoCandles.getD 1 dfltCandle).c :=
  C3_total_invariant demoCandles [demoBuy] 1 (by decide)

/-- Claim C4: the output has exactly one point per input candle, in order,
and the i-th point's timestamp is the i-th candle's close time. -/
theorem C4_series_shape (candles : List Candle) (trades : List Trade) :
    (buildSeries candles trades).length = candles.length
    ∧ ∀ i : Nat, i < candles.length →
        ((buildSeries candles trades).getD i dfltPoint).timestamp
          = (candles.getD i dfltCandle).close_time := by
  refine ⟨buildSeries_length candles trades, ?_⟩
  intro i hi
  obtain ⟨st, hst⟩ := mergeGo_getD candles (sortTrades trades) (0, 0) i hi
  rw [show buildSeries candles trades = mergeGo candles (sortTrades trades) (0, 0)
      from rfl, hst]
  simp [mkPoint]

/-- Witness for C4: length and first timestamp on the demo inputs. -/
theorem C4_series_shape_witness :
    (buildSeries demoCandles [demoBuy, demoSell]).length = demoCandles.length
    ∧ ((buildSeries demoCandles [demoBuy, demoSell]).getD 0 dfltPoint).timestamp
        = (demoCandles.getD 0 dfltCandle).close_time :=
  ⟨(C4_series_shape demoCandles [demoBuy, demoSell]).1,
   (C4_series_shape demoCandles [demoBuy, demoSell]).2 0 (by decide)⟩

/-- Claim C5: the series construction is deterministic in the order of the
trade input — two permutations of the same trade multiset give identical
output for every candle sequence (the ascending stable sort normalizes the
order before the merge). -/
theorem C5_order_determinism (candles : List Candle) (t1 t2 : List Trade)
    (hp : t1.Perm t2) :
    buildSeries candles t1 = buildSeries candles t2 := by
  unfold buildSeries
  apply mergeGo_congr candles _ _ _ (sortTrades_sorted t1) (sortTrades_sorted t2)
  intro k
  have hp' : (sortTrades t1).Perm (sortTrades t2) :=
    (sortTrades_perm t1).trans (hp.trans (sortTrades_perm t2).symm)
  exact ⟨((hp'.filter _).map dcash).sum_eq, ((hp'.filter _).map dasset).sum_eq⟩

/-- Witness for C5: swapping the two demo trades leaves the series equal. -/
theorem C5_order_determinism_witness :
    buildSeries demoCandles [demoBuy, demoSell]
      = buildSeries demoCandles [demoSell, demoBuy] :=
  C5_order_determinism demoCandles [demoBuy, demoSell] [demoSell, demoBuy] (by decide)

/-- Claim C6 (the code lacks the claimed bound): the pagination loop of
`fetch_trades` has no maximum page count and no `PaginationExhaustedError`;
on a page-response map that never returns an empty order list, no number of
iterations makes the loop finish — the loop does not terminate. -/
theorem C6_pagination_unbounded : ¬ fetchTradesTerminates constOrderPage := by
  rintro ⟨fuel, res, h⟩
  rw [fetchTradesLoop_const_none] at h
  exact Option.noConfusion h

/-- Counterexample to C7 as stated: the candle input `unsortedCandles` is
not ascending-sorted, yet the builder does not fail — it returns a series
(there is no sortedness check and no `InvalidInputError` in the code). -/
theorem C7_counterexample :
    ¬ candlesSorted unsortedCandles
    ∧ ∃ pts, buildSeriesE unsortedCandles [] = Except.ok pts :=
  ⟨by decide, ⟨_, rfl⟩⟩

/-- Claim C7 as amended: the series builder never fails — for every candle
sequence (sorted or not) and every trade sequence it returns the merged
series with no error; in particular the merge itself has no runtime
failure on ascending-sorted candles. -/
theorem C7_never_fails (candles : List Candle) (trades : List Trade) :
    ∃ pts, buildSeriesE candles trades = Except.ok pts
      ∧ pts = buildSeries candles trades :=
  ⟨_, rfl, rfl⟩

/-- Counterexample to C8 as stated: the lower-cased form of `"INRINR"` ends
with `"inr"`, but the code's filter token (`replace` rewrites every
occurrence of `"inr"`) differs from the token the claim describes (a single
comma before the trailing suffix). -/
theorem C8_counterexample :
    occursInrAt (pyLower trickySymbol) ((pyLower trickySymbol).length - 3)
    ∧ currencyFilterTok trickySymbol ≠ specTrailingCommaTok trickySymbol := by
  constructor <;> decide

/-- Claim C8 as amended: for every symbol whose lower-cased form contains
`"inr"` only as its trailing suffix, the filter token is the lower-cased
symbol with a comma inserted before that suffix, and the wire filter is
exactly that token wrapped as `["token"]`. -/
theorem C8_currency_filter (symbol : List Char) (h : onlyTrailingInr (pyLower symbol)) :
    currencyFilterTok symbol
        = (pyLower symbol).take ((pyLower symbol).length - 3) ++ [',', 'i', 'n', 'r']
    ∧ wireCurrency symbol
        = ['[', '"']
          ++ ((pyLower symbol).take ((pyLower symbol).length - 3) ++ [',', 'i', 'n', 'r'])
          ++ ['"', ']'] := by
  obtain ⟨hend, hno⟩ := h
  set s := pyLower symbol with hs
  have h3 : 3 ≤ s.length := by
    by_contra hlt
    push_neg at hlt
    have h0 : s.length - 3 = 0 := by omega
    rw [h0] at hend
    simp only [occursInrAt, List.drop_zero] at hend
    have hlen := congrArg List.length hend
    simp [List.length_take] at hlen
    omega
  have hdrop : s.drop (s.length - 3) = ['i', 'n', 'r'] := by
    have htk : (s.drop (s.length - 3)).take 3 = s.drop (s.length - 3) :=
      List.take_of_length_le (by simp [List.length_drop]; omega)
    rw [← htk]
    exact hend
  have hsplit : s.take (s.length - 3) ++ ['i', 'n', 'r'] = s := by
    rw [← hdrop]
    exact List.take_append_drop _ _
  have hcond : ∀ i, i < (s.take (s.length - 3)).length →
      ¬ occursInrAt (s.take (s.length - 3) ++ ['i', 'n', 'r']) i := by
    intro i hilen
    rw [hsplit]
    apply hno
    have hlen : (s.take (s.length - 3)).length = s.length - 3 := by
      simp [List.length_take]
    omega
  have hmain : currencyFilterTok symbol
      = s.take (s.length - 3) ++ [',', 'i', 'n', 'r'] := by
    calc currencyFilterTok symbol
        = replaceInr (s.take (s.length - 3) ++ ['i', 'n', 'r']) := by
          rw [show currencyFilterTok symbol = replaceInr s from rfl, hsplit]
      _ = s.take (s.length - 3) ++ [',', 'i', 'n', 'r'] := replaceInr_trailing _ hcond
  exact ⟨hmain, by
    rw [show wireCurrency symbol
        = ['[', '"'] ++ currencyFilterTok symbol ++ ['"', ']'] from rfl, hmain]⟩

/-- Witness for C8 (amended): the symbol `"BTCINR"` has `"inr"` only as its
trailing suffix, and its filter token is `"btc,inr"`. -/
theorem C8_currency_filter_witness :
    onlyTrailingInr (pyLower demoSymbol)
    ∧ currencyFilterTok demoSymbol
        = (pyLower demoSymbol).take ((pyLower demoSymbol).length - 3)
          ++ [',', 'i', 'n', 'r'] :=
  ⟨by decide, (C8_currency_filter demoSymbol (by decide)).1⟩

/-- Claim C9: a trade whose `trade_type` is neither `"buy"` nor `"sell"`
leaves the balances unchanged, and the series built with it anywhere in the
trade input equals the series built with it removed (the cursor consumes it
once and never reconsiders it). -/
theorem C9_unknown_type_ignored (candles : List Candle) (l₁ l₂ : List Trade) (t : Trade)
    (hb : t.trade_type ≠ "buy") (hs : t.trade_type ≠ "sell") :
    (∀ s : ℚ × ℚ, applyTrade s t = s)
    ∧ buildSeries candles (l₁ ++ t :: l₂) = buildSeries candles (l₁ ++ l₂) := by
  have hdc : dcash t = 0 := by simp [dcash, hb, hs]
  have hda : dasset t = 0 := by simp [dasset, hb, hs]
  refine ⟨fun s => by simp [applyTrade, hb, hs], ?_⟩
  unfold buildSeries
  apply mergeGo_congr candles _ _ _ (sortTrades_sorted _) (sortTrades_sorted _)
  intro k
  constructor
  · rw [sum_filter_sortTrades, sum_filter_sortTrades, sum_insert_noop _ _ _ _ hdc]
  · rw [sum_filter_sortTrades, sum_filter_sortTrades, sum_insert_noop _ _ _ _ hda]

/-- Witness for C9: inserting the `"cancelled"` demo trade between the two
demo trades does not change the series. -/
theorem C9_unknown_type_ignored_witness :
    buildSeries demoCandles ([demoBuy] ++ demoUnknown :: [demoSell])
      = buildSeries demoCandles ([demoBuy] ++ [demoSell]) :=
  (C9_unknown_type_ignored demoCandles [demoBuy] [demoSell] demoUnknown
    (by decide) (by decide)).2

/-- Claim C10: a trade with neither `inr_amount` nor `quote_amount` does not
make the build fail: its settlement amount is 0, so applying it moves asset
by the executed quantity and leaves cash unchanged. -/
theorem C10_missing_amount_fields (t : Trade) (hi : t.inr_amount = none)
    (hq : t.quote_amount = none) :
    settlement t = 0
    ∧ (∀ s : ℚ × ℚ, t.trade_type = "buy" →
        applyTrade s t = (s.1, s.2 + t.executed_quantity))
    ∧ (∀ s : ℚ × ℚ, t.trade_type = "sell" →
        applyTrade s t = (s.1, s.2 - t.executed_quantity))
    ∧ (∀ (candles : List Candle) (trades : List Trade),
        ∃ pts, buildSeriesE candles (t :: trades) = Except.ok pts) := by
  have h0 : settlement t = 0 := by simp [settlement, hi, hq]
  refine ⟨h0, ?_, ?_, fun candles trades => ⟨_, rfl⟩⟩
  · intro s hb
    simp [applyTrade, hb, h0]
  · intro s hs'
    simp [applyTrade, hs', h0]

/-- Witness for C10: the demo no-amount buy settles 0 and leaves cash
unchanged. -/
theorem C10_missing_amount_fields_witness :
    settlement demoNoAmount = 0
    ∧ applyTrade (5, 6) demoNoAmount = ((5 : ℚ), (6 : ℚ) + demoNoAmount.executed_quantity) :=
  ⟨(C10_missing_amount_fields demoNoAmount rfl rfl).1,
   (C10_missing_amount_fields demoNoAmount rfl rfl).2.1 (5, 6) rfl⟩

end SupportBot
